import Mathlib

/-!
Verification of the style-span alignment engine in
`ProcessPreserveStyling_http/__init__.py`.

Python strings are modelled as `List Char`; Python `str` builtins used by the
source (`find`, slicing, `strip`, `lower`, `upper`, `startswith`, `endswith`)
are embedded below with Python semantics (including negative-index slicing).
Case mapping is modelled with `Char.toLower`/`Char.toUpper`, which matches
Python on ASCII (the repository's style names and the concrete inputs used
here are ASCII).
-/

namespace PreserveStyling

/-- Does `needle` occur in `text` starting exactly at index `i`? -/
def matchesAt (text needle : List Char) (i : Nat) : Bool :=
  decide (needle = (text.drop i).take needle.length)

/-- Python `text.find(needle, start)` (for `start ≥ 0`): the smallest index
`i ≥ start` at which `needle` occurs, else `-1`. -/
def pyFind (text needle : List Char) (start : Nat) : Int :=
  match (List.range (text.length + 1)).find? (fun i => decide (start ≤ i) && matchesAt text needle i) with
  | some i => (i : Int)
  | none => -1

/-- Python `s.lower()` (ASCII model). -/
def pyLower (s : List Char) : List Char := s.map Char.toLower

/-- Python `s.upper()` (ASCII model). -/
def pyUpper (s : List Char) : List Char := s.map Char.toUpper

/-- Characters removed by Python `str.strip()` with no argument. -/
def isPySpace (c : Char) : Bool :=
  c == ' ' || c == '\t' || c == '\n' || c == '\r' || c == '\x0b' || c == '\x0c'

/-- Python `s.strip()`. -/
def pyStrip (s : List Char) : List Char :=
  ((s.dropWhile isPySpace).reverse.dropWhile isPySpace).reverse

/-- Python `s.startswith(p)`. -/
def strStarts (s p : List Char) : Bool :=
  decide (s.take p.length = p)

/-- Python `s.endswith(p)`. -/
def strEnds (s p : List Char) : Bool :=
  decide (s.drop (s.length - p.length) = p)

/-- Normalization of one slice bound, Python semantics: a negative index
counts from the end (clamped to 0), a non-negative one is clamped to the
length. -/
def pySliceIdx (n : Nat) (i : Int) : Nat :=
  if i < 0 then ((n : Int) + i).toNat else min i.toNat n

/-- Python slice `s[a:b]` with integer bounds (step 1). -/
def pySlice (s : List Char) (a b : Int) : List Char :=
  (s.take (pySliceIdx s.length b)).drop (pySliceIdx s.length a)

example : pyFind "Le mot **Gras**".toList "Gras".toList 0 = 9 := by decide
example : pyFind "ab".toList "a".toList 2 = -1 := by decide
example : pySlice "abcdef".toList (-2) 8 = "ef".toList := by decide
example : pySlice "abcdef".toList (-2) 0 = [] := by decide
example : pyStrip "  ab ".toList = "ab".toList := by decide

/-!
## Style extraction (`_normalize_style_name`, `_parse_styles`, `extract_words_by_style`)
-/

/-- Model of `_normalize_style_name`.  The source's third test is
`if s in ("UNDERLINED"):` — `("UNDERLINED")` is a plain string, not a tuple,
so Python evaluates a substring-membership test; it is modelled with
`pyFind`.  In particular every substring of `"UNDERLINED"` (including the
empty string) normalizes to `"UNDERLINE"`. -/
def normalize_style_name (name : List Char) : List Char :=
  let s := pyUpper name
  let s := if s = "BOLDED".toList then "BOLD".toList else s
  let s := if s = "ITALICS".toList ∨ s = "ITALICIZED".toList then "ITALIC".toList else s
  let s := if 0 ≤ pyFind "UNDERLINED".toList s 0 then "UNDERLINE".toList else s
  s

/-- The three style tags, as a closed variant (the source checks
`style in ("BOLD", "ITALIC", "UNDERLINE")` and this inductive records which
of the three matched). -/
inductive Style where
  | bold
  | italic
  | underline
deriving DecidableEq, Repr

/-- Which of the three accepted tags a normalized style string is, if any
(the source's tuple-membership test `style in ("BOLD","ITALIC","UNDERLINE")`
together with the later dict lookup `{"BOLD": "bold", ...}[style]`). -/
def styleOfString (s : List Char) : Option Style :=
  if s = "BOLD".toList then some .bold
  else if s = "ITALIC".toList then some .italic
  else if s = "UNDERLINE".toList then some .underline
  else none

/-- One raw style annotation entry as `_parse_styles` sees it.
`offset`/`length` are the results of the `int(...)` decodes: `some n` when
the decode yields `n` (a missing field decodes to `0` through the
`s.get(..., 0) or 0` defaults), `none` when `int(...)` raises and the entry
is skipped. `style` is `str(s.get("style", s.get("Style", "")))`. -/
structure RawStyleDict where
  offset : Option Int
  length : Option Int
  style : List Char
deriving DecidableEq, Repr

/-- One span dict as consumed by `extract_words_by_style` (and as produced
by `_parse_styles`): `int(s.get("offset"))` / `int(s.get("length"))` are
`some _` when they decode, `none` when they raise and the span is skipped. -/
structure StyleSpan where
  offset : Option Int
  length : Option Int
  style : List Char
deriving DecidableEq, Repr

/-- Model of `_parse_styles` (on an already-decoded list of annotation dicts): keep
entries with a decodable positive length and a style normalizing to one of
the three tags; no check at all is made on the offset's sign. -/
def parse_styles (raws : List RawStyleDict) : List StyleSpan :=
  raws.filterMap (fun s =>
    match s.offset, s.length with
    | some offset, some length =>
      let style := normalize_style_name s.style
      if 0 < length ∧ (styleOfString style).isSome then
        some ⟨some offset, some length, style⟩
      else none
    | _, _ => none)

/-- The payload handed to `extract_words_by_style`:
`{"value": sourceText, "styles": [...]}`. -/
structure Payload where
  value : List Char
  styles : List StyleSpan
deriving DecidableEq, Repr

/-- The `{bold, italics, underline}` triple of string lists (`TermBucket` /
`AlignmentResult` canonical shape). -/
structure Buckets where
  bold : List (List Char)
  italics : List (List Char)
  underline : List (List Char)
deriving DecidableEq, Repr

/-- Bucket selection by style tag (the source's
`{"BOLD": "bold", "ITALIC": "italics", "UNDERLINE": "underline"}[style]`
dict lookup followed by `out[key]`). -/
def bucketsGet (b : Buckets) : Style → List (List Char)
  | .bold => b.bold
  | .italic => b.italics
  | .underline => b.underline

/-- Bucket append, `out[key].append(chunk)`. -/
def bucketsPush (b : Buckets) : Style → List Char → Buckets
  | .bold, c => { b with bold := b.bold ++ [c] }
  | .italic, c => { b with italics := b.italics ++ [c] }
  | .underline, c => { b with underline := b.underline ++ [c] }

/-- The per-span body of the first loop of `extract_words_by_style`:
decode offset/length, reject non-positive length, normalize and check the
style, slice `src[start:end]` with Python semantics, reject an empty chunk;
a surviving span yields the `(style, si, chunk)` item that is appended to
`items`.  (`snap_to_word` expansion and edge trimming are commented out in
the source and hence absent here.) -/
def extractItem (src : List Char) (s : StyleSpan) : Option (Style × Int × List Char) :=
  match s.offset, s.length with
  | some start, some length =>
    if length ≤ 0 then none
    else
      match styleOfString (normalize_style_name s.style) with
      | some st =>
        let chunk := pySlice src start (start + length)
        if chunk = [] then none else some (st, start, chunk)
      | none => none
  | _, _ => none

/-- The second loop of `extract_words_by_style`: walk the sorted items,
dedupe on the casefolded chunk (casefold modelled as ASCII lower), append
surviving chunks to their bucket.  `out` and `seen` both start empty. -/
def assignGo (dedupe : Bool) : Buckets → Buckets → List (Style × Int × List Char) → Buckets
  | out, _, [] => out
  | out, seen, (st, _, chunk) :: rest =>
    if dedupe then
      let norm := pyLower chunk
      if norm ∈ bucketsGet seen st then assignGo dedupe out seen rest
      else assignGo dedupe (bucketsPush out st chunk) (bucketsPush seen st norm) rest
    else assignGo dedupe (bucketsPush out st chunk) seen rest

/-- Model of `extract_words_by_style`.  `items.sort(key=lambda t: t[1])` is a stable
sort by offset, modelled with `List.insertionSort` on the offset component. -/
def extract_words_by_style (payload : Payload) (_snap_to_word : Bool) (dedupe : Bool) : Buckets :=
  let src := payload.value
  let items := payload.styles.filterMap (extractItem src)
  let sorted := List.insertionSort (fun a b => a.2.1 ≤ b.2.1) items
  assignGo dedupe ⟨[], [], []⟩ ⟨[], [], []⟩ sorted

example :
    extract_words_by_style ⟨"The **Bold** word".toList, [⟨some 6, some 4, "bold".toList⟩]⟩ true true
      = ⟨["Bold".toList], [], []⟩ := by decide

example :
    extract_words_by_style ⟨"abcdef".toList, parse_styles [⟨some (-2), some 10, "BOLD".toList⟩]⟩ true true
      = ⟨["ef".toList], [], []⟩ := by decide

example : normalize_style_name "".toList = "UNDERLINE".toList := by decide

example :
    extract_words_by_style ⟨"aA".toList, [⟨some 0, some 1, "bold".toList⟩, ⟨some 1, some 5, "bold".toList⟩]⟩ true true
      = ⟨["a".toList], [], []⟩ := by decide

/-!
## Span location (`_split_pair`, `_find_from`, `transform_alignment_to_styles`)
-/

/-- The fixed pairing marker `"****"`. -/
def marker : List Char := "****".toList

/-- Model of `_split_pair`: split on the first occurrence of the marker if present,
else pair with the empty target. -/
def split_pair (s : List Char) : List Char × List Char :=
  let p := pyFind s marker 0
  if 0 ≤ p then (s.take p.toNat, s.drop (p.toNat + marker.length)) else (s, [])

/-- Model of `_find_from`: case-sensitive forward search from `start`, then
case-insensitive forward search from `start`, then an unconstrained
case-sensitive search over the whole text. -/
def find_from (text needle : List Char) (start : Nat) : Int :=
  let pos := pyFind text needle start
  if pos ≠ -1 then pos
  else
    let pos := pyFind (pyLower text) (pyLower needle) start
    if pos ≠ -1 then pos else pyFind text needle 0

/-- One output span of `transform_alignment_to_styles`
(`{style, source, translated_text, offset, length}`; `offset = -1, length = 0`
is the unmatched placeholder). -/
structure LocatedSpan where
  style : String
  source : List Char
  translated_text : List Char
  offset : Int
  length : Nat
deriving DecidableEq, Repr

/-- The inner loop of `transform_alignment_to_styles` over one style bucket,
carrying that bucket's cursor. -/
def locateGo (text : List Char) (styleName : String) (keep : Bool) : Nat → List (List Char) → List LocatedSpan
  | _, [] => []
  | cursor, item :: rest =>
    let sp := split_pair item
    if sp.2 ≠ [] then
      let pos := find_from text sp.2 cursor
      if pos ≠ -1 then
        { style := styleName, source := sp.1,
          translated_text := (text.drop pos.toNat).take sp.2.length,
          offset := pos, length := sp.2.length }
          :: locateGo text styleName keep (pos.toNat + sp.2.length) rest
      else if keep then
        { style := styleName, source := sp.1, translated_text := [], offset := -1, length := 0 }
          :: locateGo text styleName keep cursor rest
      else locateGo text styleName keep cursor rest
    else if keep then
      { style := styleName, source := sp.1, translated_text := [], offset := -1, length := 0 }
        :: locateGo text styleName keep cursor rest
    else locateGo text styleName keep cursor rest

/-- Model of `transform_alignment_to_styles`: buckets processed in the fixed order
bold, italics, underline, each with its own cursor starting at 0, all spans
appended to one output list. -/
def transform_alignment_to_styles (alignment : Buckets) (translated_text : List Char) (keep_unmatched : Bool) : List LocatedSpan :=
  locateGo translated_text "BOLD" keep_unmatched 0 alignment.bold
    ++ locateGo translated_text "ITALIC" keep_unmatched 0 alignment.italics
    ++ locateGo translated_text "UNDERLINE" keep_unmatched 0 alignment.underline

example :
    transform_alignment_to_styles ⟨["Bold****Gras".toList], [], []⟩ "Le mot **Gras**".toList false
      = [⟨"BOLD", "Bold".toList, "Gras".toList, 9, 4⟩] := by decide

example :
    transform_alignment_to_styles ⟨["x****ab".toList, "x****a".toList], [], []⟩ "ab".toList false
      = [⟨"BOLD", "x".toList, "ab".toList, 0, 2⟩, ⟨"BOLD", "x".toList, "a".toList, 0, 1⟩] := by decide

/-!
## Positional pairing (`_pair_positionally_if_needed`)
-/

/-- Does an alignment entry contain the pairing marker (`"****" in x`)? -/
def containsMarker (x : List Char) : Bool := decide (0 ≤ pyFind x marker 0)

/-- The per-bucket body of `_pair_positionally_if_needed`: an empty bucket
stays empty; a bucket with no marked entry is rebuilt positionally against
the extracted source terms (`[f"{srcs[i]}****{items[i]}" for i in range(n)
if items[i]]` with `n = min(len(items), len(srcs))`); a bucket with at least
one marked entry passes through unchanged. -/
def pairBucket (items srcs : List (List Char)) : List (List Char) :=
  if items = [] then []
  else if items.any containsMarker then items
  else
    let n := min items.length srcs.length
    (List.range n).filterMap (fun i =>
      if items.getD i [] = [] then none
      else some (srcs.getD i [] ++ marker ++ items.getD i []))

/-- Model of `_pair_positionally_if_needed` over the three buckets. -/
def pair_positionally_if_needed (alignment source_terms : Buckets) : Buckets :=
  ⟨pairBucket alignment.bold source_terms.bold,
   pairBucket alignment.italics source_terms.italics,
   pairBucket alignment.underline source_terms.underline⟩

example :
    pairBucket ["Sucre".toList, "Sel".toList] ["Sugar".toList, "Salt".toList]
      = ["Sugar****Sucre".toList, "Salt****Sel".toList] := by decide

example :
    pairBucket ["Sucre".toList, "".toList] ["Sugar".toList, "Salt".toList]
      = ["Sugar****Sucre".toList] := by decide

/-!
## HTTP retry loop (`_http_post_json_with_retries`)

The network call is abstracted to a map from attempt number (0-based) to an
outcome: either `requests.post` raises (connection error) or it yields a
response with a status code.  `resp.json()` is assumed to succeed on a
returned response; sleeping and backoff arithmetic do not affect which
attempt is made and are omitted.
-/

/-- Outcome of one `requests.post` call. -/
inductive HttpOutcome where
  | connError
  | status (code : Nat)
deriving DecidableEq, Repr

/-- Result of the retry loop: the attempt on which the body was returned, or
the attempt on which an exception propagated out. -/
inductive HttpResult where
  | ok (attempt : Nat)
  | raised (attempt : Nat)
deriving DecidableEq, Repr

/-- The retryable status set `(408, 429, 500, 502, 503, 504)`. -/
def retryableStatuses : List Nat := [408, 429, 500, 502, 503, 504]

/-- Does `resp.raise_for_status()` raise (`400 <= status < 600`)? -/
def raisesForStatus (c : Nat) : Bool := decide (400 ≤ c ∧ c ≤ 599)

/-- One iteration of the `for attempt in range(max_retries + 1)` loop.
A retryable status with attempts remaining continues the loop; otherwise
`raise_for_status()` either passes (success) or raises, and the raised
exception is caught by the blanket `except`, which re-raises only when
`attempt >= max_retries` and otherwise retries.  A connection error takes
the same `except` path.  `fuel` counts the loop iterations left; the
`fuel = 0` case is the (unreachable) `RuntimeError` after the loop. -/
def retryLoopAux (resp : Nat → HttpOutcome) (maxRetries : Nat) : Nat → Nat → HttpResult
  | attempt, 0 => .raised attempt
  | attempt, fuel + 1 =>
    match resp attempt with
    | .connError =>
      if maxRetries ≤ attempt then .raised attempt
      else retryLoopAux resp maxRetries (attempt + 1) fuel
    | .status c =>
      if c ∈ retryableStatuses ∧ attempt < maxRetries then
        retryLoopAux resp maxRetries (attempt + 1) fuel
      else if raisesForStatus c then
        if maxRetries ≤ attempt then .raised attempt
        else retryLoopAux resp maxRetries (attempt + 1) fuel
      else .ok attempt

/-- Model of `_http_post_json_with_retries` (attempt accounting only). -/
def http_post_json_with_retries (resp : Nat → HttpOutcome) (maxRetries : Nat) : HttpResult :=
  retryLoopAux resp maxRetries 0 (maxRetries + 1)

example : http_post_json_with_retries (fun _ => .status 200) 4 = .ok 0 := by decide
example : http_post_json_with_retries (fun _ => .status 404) 4 = .raised 4 := by decide
example : http_post_json_with_retries (fun _ => .status 503) 4 = .raised 4 := by decide
example :
    http_post_json_with_retries (fun a => if a = 0 then .status 503 else .status 200) 4 = .ok 1 := by
  decide

/-!
## JSON values and `json.loads`

`json.loads` is modelled by an executable recursive-descent parser over the
JSON subset exercised by this engine: objects, arrays, strings (with the
standard escapes and `\uXXXX`, surrogate pairs not combined), integers,
`true`/`false`/`null`.  Fractional/exponent numbers are rejected by the
model (Python would decode them to floats; no alignment flow produces
them).  Python dicts preserve insertion order, so an object is a list of
`(key, value)` pairs in source order.
-/

inductive JVal where
  | jnull
  | jbool (b : Bool)
  | jnum (n : Int)
  | jstr (s : List Char)
  | jarr (xs : List JVal)
  | jobj (fields : List (String × JVal))

/-- JSON inter-token whitespace. -/
def skipWs : List Char → List Char
  | [] => []
  | c :: rest => if c = ' ' ∨ c = '\t' ∨ c = '\n' ∨ c = '\r' then skipWs rest else c :: rest

/-- Value of a hex digit. -/
def hexVal (c : Char) : Option Nat :=
  if '0' ≤ c ∧ c ≤ '9' then some (c.toNat - 48)
  else if 'a' ≤ c ∧ c ≤ 'f' then some (c.toNat - 87)
  else if 'A' ≤ c ∧ c ≤ 'F' then some (c.toNat - 55)
  else none

/-- Single-character JSON string escapes. -/
def escChar (e : Char) : Option Char :=
  if e = '"' then some '"'
  else if e = '\\' then some '\\'
  else if e = '/' then some '/'
  else if e = 'b' then some '\x08'
  else if e = 'f' then some '\x0c'
  else if e = 'n' then some '\n'
  else if e = 'r' then some '\r'
  else if e = 't' then some '\t'
  else none

/-- Expect a literal tail (rest of `true` / `false` / `null`). -/
def expectLit (lit s : List Char) : Option (List Char) :=
  if s.take lit.length = lit then some (s.drop lit.length) else none

/-- Digit run to a number. -/
def digitsVal (ds : List Char) : Nat :=
  ds.foldl (fun acc c => acc * 10 + (c.toNat - 48)) 0

/-- Parse a non-negative integer literal; reject a following `.`/`e`/`E`
(the model's no-floats restriction). -/
def parsePosInt (s : List Char) : Option (Nat × List Char) :=
  let ds := s.takeWhile Char.isDigit
  let rest := s.dropWhile Char.isDigit
  if ds = [] then none
  else
    match rest with
    | '.' :: _ => none
    | 'e' :: _ => none
    | 'E' :: _ => none
    | _ => some (digitsVal ds, rest)

/-- Parse a JSON number (integer subset). -/
def parseNum (s : List Char) : Option (JVal × List Char) :=
  match s with
  | '-' :: rest =>
    match parsePosInt rest with
    | some (n, r) => some (.jnum (-(n : Int)), r)
    | none => none
  | _ =>
    match parsePosInt s with
    | some (n, r) => some (.jnum (n : Int), r)
    | none => none

mutual

/-- Parse one JSON value; the fuel bounds recursion depth and is decremented
on every nested call (each call consumes at least one character first, so
`length + 2` fuel always suffices). -/
def parseVal : Nat → List Char → Option (JVal × List Char)
  | 0, _ => none
  | f + 1, s =>
    match skipWs s with
    | [] => none
    | c :: rest =>
      if c = '\x7b' then
        match skipWs rest with
        | '\x7d' :: r2 => some (.jobj [], r2)
        | r1 =>
          match parseObjItems f r1 with
          | some (fields, r2) => some (.jobj fields, r2)
          | none => none
      else if c = '[' then
        match skipWs rest with
        | ']' :: r2 => some (.jarr [], r2)
        | r1 =>
          match parseArrItems f r1 with
          | some (vs, r2) => some (.jarr vs, r2)
          | none => none
      else if c = '"' then
        match parseStr f rest with
        | some (t, r1) => some (.jstr t, r1)
        | none => none
      else if c = 't' then
        match expectLit "rue".toList rest with
        | some r1 => some (.jbool true, r1)
        | none => none
      else if c = 'f' then
        match expectLit "alse".toList rest with
        | some r1 => some (.jbool false, r1)
        | none => none
      else if c = 'n' then
        match expectLit "ull".toList rest with
        | some r1 => some (.jnull, r1)
        | none => none
      else parseNum (c :: rest)

/-- Parse the body of a JSON string after its opening quote. -/
def parseStr : Nat → List Char → Option (List Char × List Char)
  | 0, _ => none
  | f + 1, s =>
    match s with
    | [] => none
    | c :: rest =>
      if c = '"' then some ([], rest)
      else if c = '\\' then
        match rest with
        | [] => none
        | e :: rest2 =>
          if e = 'u' then
            match rest2 with
            | h1 :: h2 :: h3 :: h4 :: rest3 =>
              match hexVal h1, hexVal h2, hexVal h3, hexVal h4 with
              | some a, some b, some c2, some d =>
                match parseStr f rest3 with
                | some (t, r) => some (Char.ofNat (((a * 16 + b) * 16 + c2) * 16 + d) :: t, r)
                | none => none
              | _, _, _, _ => none
            | _ => none
          else
            match escChar e with
            | some ec =>
              match parseStr f rest2 with
              | some (t, r) => some (ec :: t, r)
              | none => none
            | none => none
      else
        match parseStr f rest with
        | some (t, r) => some (c :: t, r)
        | none => none

/-- Parse the members of a non-empty JSON object after its `{`. -/
def parseObjItems : Nat → List Char → Option (List (String × JVal) × List Char)
  | 0, _ => none
  | f + 1, s =>
    match skipWs s with
    | '"' :: rest =>
      match parseStr f rest with
      | some (key, r1) =>
        match skipWs r1 with
        | ':' :: r2 =>
          match parseVal f r2 with
          | some (v, r3) =>
            match skipWs r3 with
            | ',' :: r4 =>
              match parseObjItems f r4 with
              | some (fields, r5) => some ((String.mk key, v) :: fields, r5)
              | none => none
            | '\x7d' :: r4 => some ([(String.mk key, v)], r4)
            | _ => none
          | none => none
        | _ => none
      | none => none
    | _ => none

/-- Parse the elements of a non-empty JSON array after its `[`. -/
def parseArrItems : Nat → List Char → Option (List JVal × List Char)
  | 0, _ => none
  | f + 1, s =>
    match parseVal f s with
    | some (v, r1) =>
      match skipWs r1 with
      | ',' :: r2 =>
        match parseArrItems f r2 with
        | some (vs, r3) => some (v :: vs, r3)
        | none => none
      | ']' :: r2 => some ([v], r2)
      | _ => none
    | none => none

end

/-- Model of `json.loads`: parse one value and require only whitespace after it. -/
def json_loads (s : List Char) : Option JVal :=
  match parseVal (s.length + 2) s with
  | some (v, rest) => if skipWs rest = [] then some v else none
  | none => none

example :
    json_loads "\x7b\"bold\":[\"a\"],\"n\":-3\x7d".toList
      = some (.jobj [("bold", .jarr [.jstr ['a']]), ("n", .jnum (-3))]) := by rfl
example : json_loads "[\"x\", \"y\"]".toList = some (.jarr [.jstr ['x'], .jstr ['y']]) := by rfl
example : json_loads "\x7b\"a\",\"b\"\x7d".toList = none := by rfl
example : json_loads "true rest".toList = none := by rfl

/-!
## Response recovery (`_strip_code_fences`, `_extract_first_json_object`,
`_coerce_brace_list_to_array`, `_ensure_alignment_keys`, `call_alignment_api`)
-/

/-- Python `repr` of a JSON-shaped value, used by `str` on containers.
String escaping inside `repr` is not reproduced (no claim exercises it);
scalars follow Python's renderings. -/
def pyReprJ : JVal → List Char
  | .jnull => "None".toList
  | .jbool b => if b then "True".toList else "False".toList
  | .jnum n => (toString n).toList
  | .jstr s => Char.ofNat 39 :: s ++ [Char.ofNat 39]
  | .jarr xs =>
    '[' :: List.intercalate ", ".toList (xs.attach.map (fun x => pyReprJ x.1)) ++ [']']
  | .jobj fs =>
    '\x7b' :: List.intercalate ", ".toList
      (fs.attach.map (fun f =>
        (Char.ofNat 39 :: f.1.1.toList ++ [Char.ofNat 39]) ++ ": ".toList ++ pyReprJ f.1.2))
      ++ ['\x7d']
decreasing_by
  · simp_wf
    have h := List.sizeOf_lt_of_mem x.2
    omega
  · simp_wf
    have h := List.sizeOf_lt_of_mem f.2
    have h2 : sizeOf f.1.2 < sizeOf f.1 := by
      obtain ⟨⟨a, b⟩, hf⟩ := f
      simp [Prod.mk.sizeOf_spec]
    omega

/-- Python `str(x)`: identity on strings, `repr`-style rendering otherwise. -/
def pyStrJ : JVal → List Char
  | .jstr s => s
  | v => pyReprJ v

/-- Python iteration over the value stored at an alignment key, combined
with the `str(x)` coercion of `[str(x) for x in obj[k]]`: lists iterate
their elements, strings iterate their characters, dicts iterate their keys;
any other value is not iterable and raises `TypeError`. -/
def ensureIter : JVal → Option (List JVal)
  | .jarr xs => some (xs.map (fun x => .jstr (pyStrJ x)))
  | .jstr s => some (s.map (fun c => .jstr [c]))
  | .jobj fs => some (fs.map (fun f => .jstr f.1.toList))
  | _ => none

/-- Python dict item assignment `d[k] = v`: replace in place when the key
exists (insertion order preserved), append otherwise. -/
def dictSet (d : List (String × JVal)) (k : String) (v : JVal) : List (String × JVal) :=
  if (List.lookup k d).isSome then d.map (fun p => if p.1 = k then (k, v) else p)
  else d ++ [(k, v)]

/-- The reassignment `obj[k] = [str(x) for x in obj[k]]` on a dict that is
known to carry key `k` (`none` models the `TypeError` when `obj[k]` is not
iterable). -/
def ensureKeyAux (d1 : List (String × JVal)) (k : String) : Option (List (String × JVal)) :=
  match List.lookup k d1 with
  | some v =>
    match ensureIter v with
    | some xs => some (dictSet d1 k (.jarr xs))
    | none => none
  | none => none

/-- One key's processing inside `_ensure_alignment_keys`: default a missing
key to `[]`, then coerce the stored value to a list of strings. -/
def ensureKey (d : List (String × JVal)) (k : String) : Option (List (String × JVal)) :=
  ensureKeyAux (if (List.lookup k d).isSome then d else d ++ [(k, .jarr [])]) k

/-- Model of `_ensure_alignment_keys`: process `"bold"`, `"italics"`, `"underline"`
in order.  Keys other than these three are left untouched (the function
never removes keys). -/
def ensure_alignment_keys (d : List (String × JVal)) : Option (List (String × JVal)) :=
  match ensureKey d "bold" with
  | none => none
  | some d1 =>
    match ensureKey d1 "italics" with
    | none => none
    | some d2 => ensureKey d2 "underline"

/-- Model of `_strip_code_fences`. -/
def strip_code_fences (text : List Char) : List Char :=
  let fence := "```".toList
  let t := pyStrip text
  if strStarts t fence && strEnds t fence then
    let t1 := t.drop 3
    let t2 :=
      if t1.contains '\n' then
        let p := (pyFind t1 ['\n'] 0).toNat
        let first_line := t1.take p
        let rest := t1.drop (p + 1)
        if (["json".toList, "javascript".toList, "js".toList]).contains (pyLower (pyStrip first_line)) then rest
        else first_line ++ '\n' :: rest
      else t1
    let t3 := if strEnds t2 fence then t2.take (t2.length - 3) else t2
    pyStrip t3
  else pyStrip t

/-- The scanning loop of `_extract_first_json_object`: depth counting with
string-literal and escape tracking; returns how many characters the first
balanced object spans. -/
def scanBalanced : List Char → Nat → Bool → Bool → Nat → Option Nat
  | [], _, _, _, _ => none
  | c :: rest, depth, inStr, esc, taken =>
    if inStr then
      if esc then scanBalanced rest depth true false (taken + 1)
      else if c = '\\' then scanBalanced rest depth true true (taken + 1)
      else if c = '"' then scanBalanced rest depth false false (taken + 1)
      else scanBalanced rest depth true false (taken + 1)
    else
      if c = '"' then scanBalanced rest depth true false (taken + 1)
      else if c = '\x7b' then scanBalanced rest (depth + 1) false false (taken + 1)
      else if c = '\x7d' then
        if depth = 1 then some (taken + 1)
        else scanBalanced rest (depth - 1) false false (taken + 1)
      else scanBalanced rest depth false false (taken + 1)

/-- Model of `_extract_first_json_object`. -/
def extract_first_json_object (text : List Char) : Option (List Char) :=
  let start := pyFind text ['\x7b'] 0
  if start < 0 then none
  else
    let tail := text.drop start.toNat
    match scanBalanced tail 0 false false 0 with
    | some n => some (tail.take n)
    | none => none

/-- Model of `_coerce_brace_list_to_array`: a stripped text that starts with `{`,
ends with `}` and contains no colon is re-decoded as `[` + body + `]`; only
a list of strings is accepted. -/
def coerce_brace_list_to_array (text : List Char) : Option (List (List Char)) :=
  let t := pyStrip text
  if strStarts t ['\x7b'] && strEnds t ['\x7d'] && !t.contains ':' then
    match json_loads ('[' :: ((t.drop 1).dropLast ++ [']'])) with
    | some (.jarr xs) =>
      if xs.all (fun x => match x with | .jstr _ => true | _ => false) then
        some (xs.filterMap (fun x => match x with | .jstr s => some s | _ => none))
      else none
    | _ => none
  else none

/-- Content extraction `data["choices"][0]["message"]["content"]` guarded by
`try/except: pass` — any failure along the chain leaves `content = data`. -/
def extractContent (data : JVal) : JVal :=
  let getKey : JVal → String → Option JVal := fun v k =>
    match v with | .jobj fs => List.lookup k fs | _ => none
  let head0 : JVal → Option JVal := fun v =>
    match v with | .jarr (x :: _) => some x | _ => none
  let step : Option JVal :=
    (getKey data "choices").bind (fun c =>
      (head0 c).bind (fun m =>
        (getKey m "message").bind (fun mm => getKey mm "content")))
  match step with
  | some c => c
  | none => data

/-- Stages 2 and 3 of the recovery chain: direct `json.loads`, then
`_extract_first_json_object` and `json.loads` of the extracted slice. -/
def parsedOf (raw : List Char) : Option JVal :=
  match json_loads raw with
  | some p => some p
  | none =>
    match extract_first_json_object raw with
    | some maybe => json_loads maybe
    | none => none

/-- How `call_alignment_api` can raise in its response-processing part. -/
inductive ApiError where
  | nameError
  | valueError
  | typeError
deriving DecidableEq, Repr

/-- Wrap `_ensure_alignment_keys` as the tail of a success path (its
`TypeError` propagates out of `call_alignment_api`). -/
def finishEnsure (obj : List (String × JVal)) : Except ApiError (List (String × JVal)) :=
  match ensure_alignment_keys obj with
  | some r => .ok r
  | none => .error .typeError

/-- The response-processing part of `call_alignment_api`, after
`_http_post_json_with_retries` has produced the JSON body `data` (the
configuration check and HTTP call are outside this deterministic core).
When `content` is not a string the whole `if isinstance(content, str)` block
is skipped and the local `obj` is never assigned, so the closing
`len(obj['bold'])` raises `NameError` — modelled as `.error .nameError`. -/
def call_alignment_api (data : JVal) (bold_array italics_array underlined_array : List (List Char)) : Except ApiError (List (String × JVal)) :=
  match extractContent data with
  | .jstr s =>
    match parsedOf (strip_code_fences s) with
    | none =>
      match coerce_brace_list_to_array (strip_code_fences s) with
      | some brace_list =>
        if brace_list.length = bold_array.length + italics_array.length + underlined_array.length then
          finishEnsure
            [("bold", .jarr ((brace_list.take bold_array.length).map .jstr)),
             ("italics", .jarr (((brace_list.drop bold_array.length).take italics_array.length).map .jstr)),
             ("underline", .jarr (((brace_list.drop (bold_array.length + italics_array.length)).take underlined_array.length).map .jstr))]
        else .error .valueError
      | none => .error .valueError
    | some parsed =>
      match parsed with
      | .jarr xs =>
        finishEnsure
          [("bold", .jarr (xs.take bold_array.length)),
           ("italics", .jarr ((xs.drop bold_array.length).take italics_array.length)),
           ("underline", .jarr ((xs.drop (bold_array.length + italics_array.length)).take underlined_array.length))]
      | .jobj fs => finishEnsure fs
      | _ => .error .valueError
  | _ => .error .nameError

/-- A `choices[0].message.content` wrapper around a content value. -/
def mkResponse (content : JVal) : JVal :=
  .jobj [("choices", .jarr [.jobj [("message", .jobj [("content", content)])]])]

example :
    call_alignment_api
      (mkResponse (.jstr "\x7b\"bold\":[\"Bold****Gras\"],\"italics\":[],\"underline\":[]\x7d".toList)) [] [] []
      = .ok [("bold", .jarr [.jstr "Bold****Gras".toList]), ("italics", .jarr []), ("underline", .jarr [])] := by rfl

example :
    call_alignment_api (mkResponse (.jobj [("bold", .jarr []), ("italics", .jarr []), ("underline", .jarr [])])) [] [] []
      = .error .nameError := by rfl

example :
    call_alignment_api (mkResponse (.jstr "\x7b\"foo****bar\",\"baz****qux\"\x7d".toList)) ["x".toList] ["y".toList] []
      = .ok [("bold", .jarr [.jstr "foo****bar".toList]), ("italics", .jarr [.jstr "baz****qux".toList]), ("underline", .jarr [])] := by rfl

example :
    (call_alignment_api
      (mkResponse (.jstr "\x7b\"bold\":[],\"italics\":[],\"underline\":[],\"extra\":[]\x7d".toList)) [] [] []).toOption.map (List.map Prod.fst)
      = some ["bold", "italics", "underline", "extra"] := by rfl

/-!
## Claim C2: non-retryable HTTP error statuses
-/

/-- An outcome that is an error status outside the retryable set
(`raise_for_status()` raises and the status is not in
`(408, 429, 500, 502, 503, 504)`). -/
def isNonRetryableErr (o : HttpOutcome) : Bool :=
  match o with
  | .connError => false
  | .status c => decide (400 ≤ c ∧ c ≤ 599 ∧ ¬ c ∈ retryableStatuses)

lemma retryLoopAux_nonretry_step (resp : Nat → HttpOutcome) (m a fuel : Nat)
    (h : isNonRetryableErr (resp a) = true) :
    (m ≤ a → retryLoopAux resp m a (fuel + 1) = .raised a) ∧
    (a < m → retryLoopAux resp m a (fuel + 1) = retryLoopAux resp m (a + 1) fuel) := by
  cases hr : resp a with
  | connError => rw [hr] at h; simp [isNonRetryableErr] at h
  | status c =>
    rw [hr] at h
    have hp := of_decide_eq_true h
    obtain ⟨h1, h2, h3⟩ := hp
    have hcond : ¬ (c ∈ retryableStatuses ∧ a < m) := fun hc => h3 hc.1
    have hraise : raisesForStatus c = true := decide_eq_true ⟨h1, h2⟩
    constructor
    · intro hma
      simp only [retryLoopAux, hr, if_neg hcond, hraise, if_true, if_pos hma]
    · intro ham
      have hnma : ¬ m ≤ a := by omega
      simp only [retryLoopAux, hr, if_neg hcond, hraise, if_true, if_neg hnma]

lemma retryLoop_nonretry_exhausts (resp : Nat → HttpOutcome) (m : Nat)
    (h : ∀ a, isNonRetryableErr (resp a) = true) :
    http_post_json_with_retries resp m = .raised m := by
  have key : ∀ fuel a, a + fuel = m + 1 → a ≤ m → retryLoopAux resp m a fuel = .raised m := by
    intro fuel
    induction fuel with
    | zero => intro a ha hle; omega
    | succ f ih =>
      intro a ha hle
      by_cases hma : m ≤ a
      · have : a = m := by omega
        subst this
        rw [(retryLoopAux_nonretry_step resp a a f (h a)).1 hma]
      · rw [(retryLoopAux_nonretry_step resp m a f (h a)).2 (by omega)]
        exact ih (a + 1) (by omega) (by omega)
  exact key (m + 1) 0 (by omega) (by omega)

/-- Claim C2 counterexample: with every attempt answering HTTP 404 (an error
status outside the retryable set) and the default `max_retries = 4`, the
call does not raise on attempt 0 as the claim requires; it performs four
further attempts and raises only on attempt 4. -/
theorem C2_counterexample :
    http_post_json_with_retries (fun _ => .status 404) 4 = .raised 4 ∧
    http_post_json_with_retries (fun _ => .status 404) 4 ≠ .raised 0 := by
  constructor
  · decide
  · decide

/-- Claim C2, amended: a response with a non-retryable error status makes
`_http_post_json_with_retries` raise immediately only on the final attempt
(`attempt ≥ max_retries`); on any earlier attempt the exception from
`raise_for_status()` is caught by the blanket `except` handler and the call
is retried, so when every attempt yields such a status the call raises only
after all `max_retries + 1` attempts. -/
theorem C2_amended :
    (∀ (resp : Nat → HttpOutcome) (m a fuel : Nat),
        isNonRetryableErr (resp a) = true →
        (m ≤ a → retryLoopAux resp m a (fuel + 1) = .raised a) ∧
        (a < m → retryLoopAux resp m a (fuel + 1) = retryLoopAux resp m (a + 1) fuel)) ∧
    (∀ (resp : Nat → HttpOutcome) (m : Nat),
        (∀ a, isNonRetryableErr (resp a) = true) →
        http_post_json_with_retries resp m = .raised m) :=
  ⟨retryLoopAux_nonretry_step, retryLoop_nonretry_exhausts⟩

/-- Witness for C2_amended at a concrete input: constant HTTP 404 responses
with `max_retries = 4` raise on attempt 4. -/
theorem C2_amended_witness :
    http_post_json_with_retries (fun _ => .status 404) 4 = .raised 4 :=
  C2_amended.2 (fun _ => .status 404) 4
    (fun _ => (by decide : isNonRetryableErr (HttpOutcome.status 404) = true))

/-!
## Claim C5: structured (non-string) response content
-/

/-- Claim C5 (code bug evidence): whenever `choices[0].message.content` is
not a string — in particular when it is already the structured alignment
object — `call_alignment_api` raises (`obj` is never assigned inside the
skipped `isinstance(content, str)` block, so the closing `len(obj['bold'])`
raises `NameError`), contradicting the claim that such inputs return
normally. -/
theorem C5_structured_content_raises :
    ∀ (data : JVal) (b i u : List (List Char)), (∀ s, extractContent data ≠ .jstr s) →
      call_alignment_api data b i u = .error .nameError := by
  intro data b i u h
  unfold call_alignment_api
  cases hc : extractContent data with
  | jstr s => exact absurd hc (h s)
  | jnull => rfl
  | jbool b2 => rfl
  | jnum n => rfl
  | jarr xs => rfl
  | jobj fs => rfl

/-- Witness for C5_structured_content_raises: the structured three-key
content object from the claim raises `NameError`. -/
theorem C5_witness :
    call_alignment_api
      (mkResponse (.jobj [("bold", .jarr []), ("italics", .jarr []), ("underline", .jarr [])])) [] [] []
      = .error .nameError :=
  C5_structured_content_raises _ [] [] []
    (fun s h => by
      rw [show extractContent
            (mkResponse (.jobj [("bold", .jarr []), ("italics", .jarr []), ("underline", .jarr [])]))
          = .jobj [("bold", .jarr []), ("italics", .jarr []), ("underline", .jarr [])] from rfl] at h
      exact JVal.noConfusion h)

/-!
## Claim C6: the end-to-end concrete scenario
-/

/-- Claim C6 counterexample: on translated text `"Le mot **Gras**"` and
alignment `{bold: ["Bold****Gras"]}`, the output is not the claimed span
with offset 8 — `"Gras"` starts at index 9 of the translated string
(`"Le mot "` is 7 characters and the two asterisks occupy indices 7 and 8). -/
theorem C6_counterexample :
    transform_alignment_to_styles ⟨["Bold****Gras".toList], [], []⟩ "Le mot **Gras**".toList false
      ≠ [⟨"BOLD", "Bold".toList, "Gras".toList, 8, 4⟩] := by
  decide

/-- Claim C6, amended: the scenario returns exactly one located span with
style BOLD, source `"Bold"`, translated_text `"Gras"`, length 4 and offset
9 (not 8). -/
theorem C6_amended :
    transform_alignment_to_styles ⟨["Bold****Gras".toList], [], []⟩ "Le mot **Gras**".toList false
      = [⟨"BOLD", "Bold".toList, "Gras".toList, 9, 4⟩] := by
  decide

/-!
## Claim C8: positional pairing, bucket by bucket
-/

/-- The claim's description of the repair: zip the bucket's entries
index-for-index against the extracted source terms (truncating to the
shorter list), drop pairs whose target entry is empty, and join each
surviving pair as `source ++ "****" ++ target`. -/
def zipPairSpec (items srcs : List (List Char)) : List (List Char) :=
  ((items.zip srcs).filter (fun p => decide (p.1 ≠ []))).map (fun p => p.2 ++ marker ++ p.1)

lemma pairComp_eq_zip (items : List (List Char)) : ∀ srcs : List (List Char),
    (List.range (min items.length srcs.length)).filterMap (fun i =>
        if items.getD i [] = [] then none
        else some (srcs.getD i [] ++ marker ++ items.getD i []))
      = zipPairSpec items srcs := by
  induction items with
  | nil => intro srcs; simp [zipPairSpec]
  | cons x xs ih =>
    intro srcs
    cases srcs with
    | nil => simp [zipPairSpec]
    | cons y ys =>
      have hmin : min (x :: xs).length (y :: ys).length = min xs.length ys.length + 1 := by
        simp [Nat.succ_min_succ]
      rw [hmin, List.range_succ_eq_map]
      have htail :
          ((List.range (min xs.length ys.length)).filterMap
            ((fun i =>
              if (x :: xs).getD i [] = [] then none
              else some ((y :: ys).getD i [] ++ marker ++ (x :: xs).getD i [])) ∘ Nat.succ))
          = zipPairSpec xs ys := by
        rw [← ih ys]
        apply List.filterMap_congr
        intro i _
        simp [List.getD_cons_succ, Function.comp]
      by_cases hx : x = []
      · rw [List.filterMap_cons_none (by simp [hx]), List.filterMap_map, htail]
        simp [zipPairSpec, hx]
      · rw [@List.filterMap_cons_some _ _ _ _ _ (y ++ marker ++ x) (by simp [hx]),
          List.filterMap_map, htail]
        simp [zipPairSpec, hx]

lemma pairBucket_eq (items srcs : List (List Char)) :
    pairBucket items srcs
      = if items.any containsMarker then items else zipPairSpec items srcs := by
  unfold pairBucket
  by_cases he : items = []
  · subst he; simp [zipPairSpec]
  · rw [if_neg he]
    by_cases ha : items.any containsMarker
    · simp [ha]
    · simp only [ha, if_neg, Bool.false_eq_true, if_false]
      exact pairComp_eq_zip items srcs

/-- Claim C8: for each style bucket, `_pair_positionally_if_needed` returns
the bucket unchanged when at least one entry contains the marker, and
otherwise replaces it by the index-for-index zip against the extracted
terms for that style (truncated to the shorter length, pairs with an empty
target dropped). -/
theorem C8_theorem :
    ∀ (alignment source_terms : Buckets),
      pair_positionally_if_needed alignment source_terms =
        ⟨if alignment.bold.any containsMarker then alignment.bold
           else zipPairSpec alignment.bold source_terms.bold,
         if alignment.italics.any containsMarker then alignment.italics
           else zipPairSpec alignment.italics source_terms.italics,
         if alignment.underline.any containsMarker then alignment.underline
           else zipPairSpec alignment.underline source_terms.underline⟩ := by
  intro alignment source_terms
  unfold pair_positionally_if_needed
  rw [pairBucket_eq, pairBucket_eq, pairBucket_eq]

/-!
## Claim C1: left-to-right, non-overlapping placement within a bucket
-/

/-- The successfully located spans (offset ≥ 0) of an output list. -/
def locatedOnly (l : List LocatedSpan) : List LocatedSpan :=
  l.filter (fun s => decide (0 ≤ s.offset))

/-- The claimed relation between consecutive located spans of one bucket:
the next span starts at or after the end of the previous one. -/
def lrStep (a b : LocatedSpan) : Prop := a.offset + (a.length : Int) ≤ b.offset

instance : DecidableRel lrStep := fun _ _ => Int.decLe _ _

/-- Relation between a span and the following span of a list, if any. -/
def nextOk (R : LocatedSpan → LocatedSpan → Prop) (a : LocatedSpan) : List LocatedSpan → Prop
  | [] => True
  | b :: _ => R a b

/-- Every consecutive pair of the list satisfies `R`. -/
def chainRel (R : LocatedSpan → LocatedSpan → Prop) : List LocatedSpan → Prop
  | [] => True
  | a :: l => nextOk R a l ∧ chainRel R l

instance nextOkDec (R : LocatedSpan → LocatedSpan → Prop) [DecidableRel R] (a : LocatedSpan) :
    (l : List LocatedSpan) → Decidable (nextOk R a l)
  | [] => isTrue trivial
  | b :: _ => if h : R a b then isTrue h else isFalse h

instance chainRelDec (R : LocatedSpan → LocatedSpan → Prop) [DecidableRel R] :
    (l : List LocatedSpan) → Decidable (chainRel R l)
  | [] => isTrue trivial
  | a :: l => @instDecidableAnd _ _ (nextOkDec R a l) (chainRelDec R l)

/-- The relation that actually holds between consecutive located spans of a
bucket: either forward non-overlapping placement, or the next span's target
does not occur (even case-insensitively) at or after the previous span's
end, so `_find_from` fell back to the unconstrained whole-text search. -/
def fwdOrFallback (text : List Char) (a b : LocatedSpan) : Prop :=
  a.offset + (a.length : Int) ≤ b.offset ∨
  pyFind (pyLower text) (pyLower b.translated_text) (a.offset + (a.length : Int)).toNat = -1

/-- The first located span of a list starts at or after cursor `c`, or its
target has no case-insensitive occurrence at or after `c`. -/
def headOk (text : List Char) (c : Nat) : List LocatedSpan → Prop
  | [] => True
  | b :: _ => (c : Int) ≤ b.offset ∨ pyFind (pyLower text) (pyLower b.translated_text) c = -1

lemma pyFind_spec (t n : List Char) (s : Nat) (h : pyFind t n s ≠ -1) :
    0 ≤ pyFind t n s ∧ (s : Int) ≤ pyFind t n s ∧ matchesAt t n (pyFind t n s).toNat = true := by
  cases hf : (List.range (t.length + 1)).find? (fun i => decide (s ≤ i) && matchesAt t n i) with
  | none => exfalso; apply h; unfold pyFind; rw [hf]
  | some i =>
    have hv : pyFind t n s = (i : Int) := by unfold pyFind; rw [hf]
    rw [hv]
    have hp := List.find?_some hf
    simp only [Bool.and_eq_true, decide_eq_true_eq] at hp
    exact ⟨Int.natCast_nonneg i, by exact_mod_cast hp.1,
      by rw [Int.toNat_natCast]; exact hp.2⟩

lemma matchesAt_slice (t n : List Char) (i : Nat) (h : matchesAt t n i = true) :
    (t.drop i).take n.length = n := (of_decide_eq_true h).symm

lemma lower_slice_of_lower_match (text needle : List Char) (p : Nat)
    (h : matchesAt (pyLower text) (pyLower needle) p = true) :
    pyLower ((text.drop p).take needle.length) = pyLower needle := by
  have he := matchesAt_slice _ _ _ h
  rw [← he]
  unfold pyLower
  rw [List.map_take, List.map_drop, List.length_map]

lemma find_from_spec (text needle : List Char) (start : Nat)
    (h : find_from text needle start ≠ -1) :
    0 ≤ find_from text needle start ∧
    pyLower ((text.drop (find_from text needle start).toNat).take needle.length) = pyLower needle ∧
    ((start : Int) ≤ find_from text needle start ∨
      pyFind (pyLower text) (pyLower needle) start = -1) := by
  by_cases h1 : pyFind text needle start = -1
  · by_cases h2 : pyFind (pyLower text) (pyLower needle) start = -1
    · have hres : find_from text needle start = pyFind text needle 0 := by
        unfold find_from
        rw [if_neg (not_not_intro h1), if_neg (not_not_intro h2)]
      rw [hres] at h ⊢
      obtain ⟨hnn, _, hm⟩ := pyFind_spec text needle 0 h
      exact ⟨hnn, by rw [matchesAt_slice _ _ _ hm], Or.inr h2⟩
    · have hres : find_from text needle start = pyFind (pyLower text) (pyLower needle) start := by
        unfold find_from
        rw [if_neg (not_not_intro h1), if_pos h2]
      rw [hres] at h ⊢
      obtain ⟨hnn, hge, hm⟩ := pyFind_spec (pyLower text) (pyLower needle) start h
      exact ⟨hnn, lower_slice_of_lower_match _ _ _ hm, Or.inl hge⟩
  · have hres : find_from text needle start = pyFind text needle start := by
      unfold find_from
      rw [if_pos h1]
    rw [hres] at h ⊢
    obtain ⟨hnn, hge, hm⟩ := pyFind_spec text needle start h
    exact ⟨hnn, by rw [matchesAt_slice _ _ _ hm], Or.inl hge⟩

lemma locatedOnly_nil : locatedOnly [] = [] := rfl

lemma locatedOnly_cons_pos (s : LocatedSpan) (l : List LocatedSpan) (h : 0 ≤ s.offset) :
    locatedOnly (s :: l) = s :: locatedOnly l := by
  simp [locatedOnly, List.filter_cons, h]

lemma locatedOnly_cons_neg (s : LocatedSpan) (l : List LocatedSpan) (h : ¬ 0 ≤ s.offset) :
    locatedOnly (s :: l) = locatedOnly l := by
  simp [locatedOnly, List.filter_cons, h]

lemma locateGo_chain (text : List Char) (st : String) (keep : Bool) :
    ∀ (arr : List (List Char)) (c : Nat),
      headOk text c (locatedOnly (locateGo text st keep c arr)) ∧
      chainRel (fwdOrFallback text) (locatedOnly (locateGo text st keep c arr)) := by
  intro arr
  induction arr with
  | nil =>
    intro c
    simp only [locateGo, locatedOnly_nil]
    exact ⟨trivial, trivial⟩
  | cons item rest ih =>
    intro c
    by_cases htgt : (split_pair item).2 = []
    · have hred : locateGo text st keep c (item :: rest)
          = if keep then
              { style := st, source := (split_pair item).1, translated_text := [],
                offset := -1, length := 0 } :: locateGo text st keep c rest
            else locateGo text st keep c rest := by
        simp only [locateGo]
        rw [if_neg (not_not_intro htgt)]
      rw [hred]
      by_cases hk : keep
      · rw [if_pos hk, locatedOnly_cons_neg _ _ (show ¬ (0:Int) ≤ -1 by omega)]
        exact ih c
      · rw [if_neg hk]; exact ih c
    · by_cases hpos : find_from text (split_pair item).2 c = -1
      · have hred : locateGo text st keep c (item :: rest)
            = if keep then
                { style := st, source := (split_pair item).1, translated_text := [],
                  offset := -1, length := 0 } :: locateGo text st keep c rest
              else locateGo text st keep c rest := by
          simp only [locateGo]
          rw [if_pos htgt, if_neg (not_not_intro hpos)]
        rw [hred]
        by_cases hk : keep
        · rw [if_pos hk, locatedOnly_cons_neg _ _ (show ¬ (0:Int) ≤ -1 by omega)]
          exact ih c
        · rw [if_neg hk]; exact ih c
      · obtain ⟨hnn, hlow, hdisj⟩ := find_from_spec text (split_pair item).2 c hpos
        have hred : locateGo text st keep c (item :: rest)
            = { style := st, source := (split_pair item).1,
                translated_text :=
                  (text.drop (find_from text (split_pair item).2 c).toNat).take (split_pair item).2.length,
                offset := find_from text (split_pair item).2 c,
                length := (split_pair item).2.length }
              :: locateGo text st keep
                  ((find_from text (split_pair item).2 c).toNat + (split_pair item).2.length) rest := by
          simp only [locateGo]
          rw [if_pos htgt, if_pos hpos]
        rw [hred, locatedOnly_cons_pos _ _ hnn]
        obtain ⟨ihHead, ihChain⟩ :=
          ih ((find_from text (split_pair item).2 c).toNat + (split_pair item).2.length)
        constructor
        · show (c : Int) ≤ find_from text (split_pair item).2 c ∨
            pyFind (pyLower text)
              (pyLower ((text.drop (find_from text (split_pair item).2 c).toNat).take (split_pair item).2.length))
              c = -1
          rcases hdisj with hge | hnone
          · exact Or.inl hge
          · right; rw [hlow]; exact hnone
        · refine ⟨?_, ihChain⟩
          cases hL : locatedOnly (locateGo text st keep
              ((find_from text (split_pair item).2 c).toNat + (split_pair item).2.length) rest) with
          | nil => trivial
          | cons b tl =>
            rw [hL] at ihHead
            have hcast :
                (((find_from text (split_pair item).2 c).toNat + (split_pair item).2.length : Nat) : Int)
                  = find_from text (split_pair item).2 c + ((split_pair item).2.length : Int) := by
              push_cast
              rw [Int.toNat_of_nonneg hnn]
            show find_from text (split_pair item).2 c + ((split_pair item).2.length : Int) ≤ b.offset ∨
              pyFind (pyLower text) (pyLower b.translated_text)
                (find_from text (split_pair item).2 c + ((split_pair item).2.length : Int)).toNat = -1
            rcases ihHead with h1 | h2
            · left; rw [← hcast]; exact h1
            · right; rw [← hcast, Int.toNat_natCast]; exact h2

lemma locateGo_all_style (text : List Char) (st : String) (keep : Bool) :
    ∀ (arr : List (List Char)) (c : Nat) (s : LocatedSpan),
      s ∈ locateGo text st keep c arr → s.style = st := by
  intro arr
  induction arr with
  | nil => intro c s hs; simp [locateGo] at hs
  | cons item rest ih =>
    intro c s hs
    by_cases htgt : (split_pair item).2 = []
    · have hred : locateGo text st keep c (item :: rest)
          = if keep then
              { style := st, source := (split_pair item).1, translated_text := [],
                offset := -1, length := 0 } :: locateGo text st keep c rest
            else locateGo text st keep c rest := by
        simp only [locateGo]
        rw [if_neg (not_not_intro htgt)]
      rw [hred] at hs
      by_cases hk : keep
      · rw [if_pos hk] at hs
        rcases List.mem_cons.mp hs with h | h
        · rw [h]
        · exact ih c s h
      · rw [if_neg hk] at hs; exact ih c s hs
    · by_cases hpos : find_from text (split_pair item).2 c = -1
      · have hred : locateGo text st keep c (item :: rest)
            = if keep then
                { style := st, source := (split_pair item).1, translated_text := [],
                  offset := -1, length := 0 } :: locateGo text st keep c rest
              else locateGo text st keep c rest := by
          simp only [locateGo]
          rw [if_pos htgt, if_neg (not_not_intro hpos)]
        rw [hred] at hs
        by_cases hk : keep
        · rw [if_pos hk] at hs
          rcases List.mem_cons.mp hs with h | h
          · rw [h]
          · exact ih c s h
        · rw [if_neg hk] at hs; exact ih c s hs
      · have hred : locateGo text st keep c (item :: rest)
            = { style := st, source := (split_pair item).1,
                translated_text :=
                  (text.drop (find_from text (split_pair item).2 c).toNat).take (split_pair item).2.length,
                offset := find_from text (split_pair item).2 c,
                length := (split_pair item).2.length }
              :: locateGo text st keep
                  ((find_from text (split_pair item).2 c).toNat + (split_pair item).2.length) rest := by
          simp only [locateGo]
          rw [if_pos htgt, if_pos hpos]
        rw [hred] at hs
        rcases List.mem_cons.mp hs with h | h
        · rw [h]
        · exact ih _ s h

lemma filter_locateGo_self (text : List Char) (st : String) (keep : Bool)
    (arr : List (List Char)) (c : Nat) :
    (locateGo text st keep c arr).filter (fun s => s.style == st) = locateGo text st keep c arr := by
  rw [List.filter_eq_self]
  intro a ha
  rw [locateGo_all_style text st keep arr c a ha]
  exact beq_self_eq_true st

lemma filter_locateGo_other (text : List Char) (st : String) (keep : Bool)
    (arr : List (List Char)) (c : Nat) (st' : String) (h : st ≠ st') :
    (locateGo text st keep c arr).filter (fun s => s.style == st') = [] := by
  rw [List.filter_eq_nil_iff]
  intro a ha
  rw [locateGo_all_style text st keep arr c a ha]
  simp [h]

lemma transform_filter_eq (al : Buckets) (text : List Char) (keep : Bool) :
    (transform_alignment_to_styles al text keep).filter (fun s => s.style == "BOLD")
        = locateGo text "BOLD" keep 0 al.bold ∧
    (transform_alignment_to_styles al text keep).filter (fun s => s.style == "ITALIC")
        = locateGo text "ITALIC" keep 0 al.italics ∧
    (transform_alignment_to_styles al text keep).filter (fun s => s.style == "UNDERLINE")
        = locateGo text "UNDERLINE" keep 0 al.underline := by
  unfold transform_alignment_to_styles
  refine ⟨?_, ?_, ?_⟩
  · rw [List.filter_append, List.filter_append,
      filter_locateGo_self, filter_locateGo_other _ _ _ _ _ _ (by decide),
      filter_locateGo_other _ _ _ _ _ _ (by decide), List.append_nil, List.append_nil]
  · rw [List.filter_append, List.filter_append,
      filter_locateGo_other _ _ _ _ _ _ (by decide), filter_locateGo_self,
      filter_locateGo_other _ _ _ _ _ _ (by decide), List.nil_append, List.append_nil]
  · rw [List.filter_append, List.filter_append,
      filter_locateGo_other _ _ _ _ _ _ (by decide),
      filter_locateGo_other _ _ _ _ _ _ (by decide), filter_locateGo_self,
      List.nil_append, List.nil_append]

/-- Claim C1 counterexample: on translated text `"ab"` with bold entries
`["x****ab", "x****a"]`, both targets are located (`"ab"` at 0, then the
unconstrained fallback places `"a"` at 0 because no occurrence exists at or
after the cursor 2), so the two located spans of the bold bucket overlap,
refuting the claimed invariant. -/
theorem C1_counterexample :
    ¬ chainRel lrStep (locatedOnly
      ((transform_alignment_to_styles ⟨["x****ab".toList, "x****a".toList], [], []⟩
          "ab".toList false).filter (fun s => s.style == "BOLD"))) := by
  decide

/-- Claim C1, amended: within one style bucket, each located span starts at
or after the end of the previous located span, except when the span's
target has no occurrence (even case-insensitively) in the translated text
at or after that point — in which case `_find_from`'s final unconstrained
whole-text search may place it earlier, overlapping or preceding the
previous span. -/
theorem C1_amended :
    ∀ (alignment : Buckets) (text : List Char) (keep : Bool),
      chainRel (fwdOrFallback text) (locatedOnly
        ((transform_alignment_to_styles alignment text keep).filter (fun s => s.style == "BOLD"))) ∧
      chainRel (fwdOrFallback text) (locatedOnly
        ((transform_alignment_to_styles alignment text keep).filter (fun s => s.style == "ITALIC"))) ∧
      chainRel (fwdOrFallback text) (locatedOnly
        ((transform_alignment_to_styles alignment text keep).filter (fun s => s.style == "UNDERLINE"))) := by
  intro alignment text keep
  obtain ⟨h1, h2, h3⟩ := transform_filter_eq alignment text keep
  rw [h1, h2, h3]
  exact ⟨(locateGo_chain text "BOLD" keep alignment.bold 0).2,
    (locateGo_chain text "ITALIC" keep alignment.italics 0).2,
    (locateGo_chain text "UNDERLINE" keep alignment.underline 0).2⟩

/-!
## Slicing lemmas and extraction membership (claims C3, C7, C10)
-/

lemma pySlice_in_bounds (s : List Char) (o l : Int) (ho : 0 ≤ o) (hl : 0 ≤ l)
    (hb : o + l ≤ (s.length : Int)) :
    pySlice s o (o + l) = (s.drop o.toNat).take l.toNat := by
  unfold pySlice pySliceIdx
  rw [if_neg (by omega), if_neg (by omega)]
  have hi : min o.toNat s.length = o.toNat := by omega
  have hj : min (o + l).toNat s.length = (o + l).toNat := by omega
  rw [hi, hj, List.drop_take]
  congr 1
  omega

lemma pySlice_suffix (s : List Char) (o l : Int) (ho : 0 ≤ o) (hlt : o < (s.length : Int))
    (hpast : (s.length : Int) < o + l) :
    pySlice s o (o + l) = s.drop o.toNat := by
  unfold pySlice pySliceIdx
  rw [if_neg (by omega), if_neg (by omega)]
  have hi : min o.toNat s.length = o.toNat := by omega
  have hj : min (o + l).toNat s.length = s.length := by omega
  rw [hi, hj, List.take_length]

lemma pySlice_empty_of_ge (s : List Char) (o b : Int) (ho : (s.length : Int) ≤ o) :
    pySlice s o b = [] := by
  unfold pySlice pySliceIdx
  rw [if_neg (by omega)]
  have hi : min o.toNat s.length = s.length := by omega
  rw [hi]
  apply List.drop_eq_nil_of_le
  rw [List.length_take]
  omega

lemma bucketsGet_push (b : Buckets) (st st' : Style) (ch : List Char) :
    bucketsGet (bucketsPush b st ch) st'
      = if st' = st then bucketsGet b st' ++ [ch] else bucketsGet b st' := by
  cases st <;> cases st' <;> simp [bucketsGet, bucketsPush]

lemma assignGo_mem :
    ∀ (ded : Bool) (items : List (Style × Int × List Char)) (out seen : Buckets)
      (st : Style) (t : List Char),
      t ∈ bucketsGet (assignGo ded out seen items) st →
      t ∈ bucketsGet out st ∨ ∃ it ∈ items, it.2.2 = t := by
  intro ded items
  induction items with
  | nil => intro out seen st t ht; exact Or.inl ht
  | cons itm rest ih =>
    intro out seen st t ht
    obtain ⟨st1, pos1, ch1⟩ := itm
    have step :
        ∀ out' seen', assignGo ded out' seen' rest = assignGo ded out' seen' rest := fun _ _ => rfl
    have hpush : ∀ (h2 : t ∈ bucketsGet (bucketsPush out st1 ch1) st),
        t ∈ bucketsGet out st ∨ ∃ it ∈ (st1, pos1, ch1) :: rest, it.2.2 = t := by
      intro h2
      rw [bucketsGet_push] at h2
      by_cases hst : st = st1
      · rw [if_pos hst] at h2
        rcases List.mem_append.mp h2 with h3 | h3
        · exact Or.inl h3
        · right
          exact ⟨(st1, pos1, ch1), List.mem_cons_self _ _, (List.mem_singleton.mp h3).symm⟩
      · rw [if_neg hst] at h2
        exact Or.inl h2
    cases ded with
    | false =>
      have hred : assignGo false out seen ((st1, pos1, ch1) :: rest)
          = assignGo false (bucketsPush out st1 ch1) seen rest := by
        simp [assignGo]
      rw [hred] at ht
      rcases ih (bucketsPush out st1 ch1) seen st t ht with h | h
      · exact hpush h
      · right; obtain ⟨a, ha, he⟩ := h; exact ⟨a, List.mem_cons_of_mem _ ha, he⟩
    | true =>
      by_cases hmem : pyLower ch1 ∈ bucketsGet seen st1
      · have hred : assignGo true out seen ((st1, pos1, ch1) :: rest)
            = assignGo true out seen rest := by
          simp [assignGo, hmem]
        rw [hred] at ht
        rcases ih out seen st t ht with h | h
        · exact Or.inl h
        · right; obtain ⟨a, ha, he⟩ := h; exact ⟨a, List.mem_cons_of_mem _ ha, he⟩
      · have hred : assignGo true out seen ((st1, pos1, ch1) :: rest)
            = assignGo true (bucketsPush out st1 ch1) (bucketsPush seen st1 (pyLower ch1)) rest := by
          simp [assignGo, hmem]
        rw [hred] at ht
        rcases ih (bucketsPush out st1 ch1) (bucketsPush seen st1 (pyLower ch1)) st t ht with h | h
        · exact hpush h
        · right; obtain ⟨a, ha, he⟩ := h; exact ⟨a, List.mem_cons_of_mem _ ha, he⟩

lemma extractItem_eq_some (src : List Char) (s : StyleSpan) (it : Style × Int × List Char)
    (h : extractItem src s = some it) :
    ∃ o l : Int, s.offset = some o ∧ s.length = some l ∧ ¬ l ≤ 0 ∧
      styleOfString (normalize_style_name s.style) = some it.1 ∧
      it.2.1 = o ∧ it.2.2 = pySlice src o (o + l) ∧ pySlice src o (o + l) ≠ [] := by
  obtain ⟨soff, slen, sstyle⟩ := s
  cases soff with
  | none => simp [extractItem] at h
  | some o =>
    cases slen with
    | none => simp [extractItem] at h
    | some l =>
      by_cases hl0 : l ≤ 0
      · simp [extractItem, hl0] at h
      · cases hst : styleOfString (normalize_style_name sstyle) with
        | none => simp [extractItem, hl0, hst] at h
        | some st2 =>
          by_cases hch : pySlice src o (o + l) = []
          · simp [extractItem, hl0, hst, hch] at h
          · simp [extractItem, hl0, hst, hch] at h
            refine ⟨o, l, rfl, rfl, hl0, ?_, ?_, ?_, hch⟩
            · rw [← h]
            · rw [← h]
            · rw [← h]

lemma extract_mem (p : Payload) (snap ded : Bool) (st : Style) (t : List Char)
    (ht : t ∈ bucketsGet (extract_words_by_style p snap ded) st) :
    ∃ s ∈ p.styles, ∃ o l : Int, s.offset = some o ∧ s.length = some l ∧ ¬ l ≤ 0 ∧
      (styleOfString (normalize_style_name s.style)).isSome ∧
      t = pySlice p.value o (o + l) ∧ t ≠ [] := by
  unfold extract_words_by_style at ht
  rcases assignGo_mem ded _ _ _ st t ht with h | h
  · cases st <;> simp [bucketsGet] at h
  · obtain ⟨it, hit, hch⟩ := h
    have hit2 : it ∈ p.styles.filterMap (extractItem p.value) :=
      (List.perm_insertionSort _ _).mem_iff.mp hit
    rw [List.mem_filterMap] at hit2
    obtain ⟨s, hs, hex⟩ := hit2
    obtain ⟨o, l, ho, hl, hl0, hst, _, hslice, hne⟩ := extractItem_eq_some p.value s it hex
    exact ⟨s, hs, o, l, ho, hl, hl0, by rw [hst]; rfl, by rw [← hch, hslice], by rw [← hch, hslice]; exact hne⟩

/-- Claim C7: every term placed in a bucket by `extract_words_by_style` is
the Python slice `src[offset : offset+length]` of some kept span, and when
that span lies within bounds (`0 ≤ offset` and `offset + length ≤ len(src)`)
the term is the verbatim substring `drop offset (take (offset+length) src)`
— no trimming or boundary adjustment of any kind. -/
theorem C7_theorem :
    ∀ (p : Payload) (snap ded : Bool) (st : Style) (t : List Char),
      t ∈ bucketsGet (extract_words_by_style p snap ded) st →
      ∃ s ∈ p.styles, ∃ o l : Int, s.offset = some o ∧ s.length = some l ∧ 0 < l ∧
        t = pySlice p.value o (o + l) ∧
        (0 ≤ o → o + l ≤ (p.value.length : Int) →
          t = (p.value.drop o.toNat).take l.toNat) := by
  intro p snap ded st t ht
  obtain ⟨s, hs, o, l, ho, hl, hl0, _, hts, _⟩ := extract_mem p snap ded st t ht
  refine ⟨s, hs, o, l, ho, hl, by omega, hts, ?_⟩
  intro h1 h2
  rw [hts, pySlice_in_bounds p.value o l h1 (by omega) h2]

/-- Witness for C7_theorem: the span `(offset 3, length 5)` over
`"Hi World"` yields exactly the verbatim substring `"World"`. -/
theorem C7_witness :
    ∃ s ∈ ([⟨some 3, some 5, "bold".toList⟩] : List StyleSpan), ∃ o l : Int,
      s.offset = some o ∧ s.length = some l ∧ 0 < l ∧
      "World".toList = pySlice "Hi World".toList o (o + l) ∧
      (0 ≤ o → o + l ≤ (("Hi World".toList).length : Int) →
        "World".toList = (("Hi World".toList).drop o.toNat).take l.toNat) :=
  C7_theorem ⟨"Hi World".toList, [⟨some 3, some 5, "bold".toList⟩]⟩ true true .bold
    "World".toList (by decide)

/-!
## Claim C3: annotations with negative offsets
-/

/-- Does an annotation's offset decode to a non-negative integer? -/
def hasNonNegOffset (a : RawStyleDict) : Bool :=
  match a.offset with
  | some o => decide (0 ≤ o)
  | none => false

lemma styleOfString_cases (s : List Char) (st : Style) (h : styleOfString s = some st) :
    s = "BOLD".toList ∨ s = "ITALIC".toList ∨ s = "UNDERLINE".toList := by
  unfold styleOfString at h
  by_cases h1 : s = "BOLD".toList
  · exact Or.inl h1
  · rw [if_neg h1] at h
    by_cases h2 : s = "ITALIC".toList
    · exact Or.inr (Or.inl h2)
    · rw [if_neg h2] at h
      by_cases h3 : s = "UNDERLINE".toList
      · exact Or.inr (Or.inr h3)
      · rw [if_neg h3] at h; simp at h

lemma normalize_idem (s : List Char) (st : Style)
    (h : styleOfString (normalize_style_name s) = some st) :
    normalize_style_name (normalize_style_name s) = normalize_style_name s := by
  rcases styleOfString_cases _ _ h with hc | hc | hc <;> rw [hc] <;> decide

/-- Claim C3 counterexample: the single raw annotation
`{offset: -2, length: 10, style: "BOLD"}` over source `"abcdef"` has a
negative offset, yet extraction produces the bold term `"ef"` (Python's
negative-index slice `"abcdef"[-2:8]`), so not every term originates from
an annotation with non-negative offset. -/
theorem C3_counterexample :
    ¬ (∀ t ∈ (extract_words_by_style
          ⟨"abcdef".toList, parse_styles [⟨some (-2), some 10, "BOLD".toList⟩]⟩ true true).bold,
        ∃ a ∈ ([⟨some (-2), some 10, "BOLD".toList⟩] : List RawStyleDict),
          hasNonNegOffset a = true) := by
  decide

/-- Claim C3, amended: a raw annotation with a negative offset is *not*
skipped: neither `_parse_styles` nor `extract_words_by_style` checks the
offset's sign, so (for a decodable positive length and a recognized style)
the annotation contributes the Python slice
`sourceText[offset : offset+length]` — nonempty exactly when the
negative-index slice is nonempty — and is dropped only when that slice is
empty. -/
theorem C3_amended :
    ∀ (src : List Char) (a : RawStyleDict) (o l : Int) (st : Style),
      a.offset = some o → o < 0 → a.length = some l → 0 < l →
      styleOfString (normalize_style_name a.style) = some st →
      extract_words_by_style ⟨src, parse_styles [a]⟩ true true
        = (if pySlice src o (o + l) = [] then (⟨[], [], []⟩ : Buckets)
           else bucketsPush ⟨[], [], []⟩ st (pySlice src o (o + l))) := by
  intro src a o l st ho hneg hl hl0 hst
  have hps : parse_styles [a] = [⟨some o, some l, normalize_style_name a.style⟩] := by
    simp [parse_styles, ho, hl, hl0, hst]
  rw [hps]
  have hitem : extractItem src ⟨some o, some l, normalize_style_name a.style⟩
      = (if pySlice src o (o + l) = [] then none
         else some (st, o, pySlice src o (o + l))) := by
    simp [extractItem, normalize_idem a.style st hst, hst, (show ¬ l ≤ 0 by omega)]
  by_cases hch : pySlice src o (o + l) = []
  · rw [if_pos hch]
    rw [if_pos hch] at hitem
    simp [extract_words_by_style, hitem, assignGo]
  · rw [if_neg hch]
    rw [if_neg hch] at hitem
    simp only [extract_words_by_style, List.filterMap_cons, List.filterMap_nil, hitem]
    cases st <;>
      simp [List.insertionSort, List.orderedInsert, assignGo, bucketsGet, bucketsPush, hch]

/-- Witness for C3_amended: the negative-offset annotation
`{offset: -2, length: 10, style: "BOLD"}` over `"abcdef"` contributes the
bold term `"ef"`. -/
theorem C3_amended_witness :
    extract_words_by_style
        ⟨"abcdef".toList, parse_styles [⟨some (-2), some 10, "BOLD".toList⟩]⟩ true true
      = (if pySlice "abcdef".toList (-2) (-2 + 10) = [] then (⟨[], [], []⟩ : Buckets)
         else bucketsPush ⟨[], [], []⟩ .bold (pySlice "abcdef".toList (-2) (-2 + 10))) :=
  C3_amended "abcdef".toList ⟨some (-2), some 10, "BOLD".toList⟩ (-2) 10 .bold rfl (by decide)
    rfl (by decide) (by decide)

/-!
## Claim C10: spans extending past the end of the source text
-/

lemma assignGo_mono :
    ∀ (ded : Bool) (items : List (Style × Int × List Char)) (out seen : Buckets)
      (st : Style) (t : List Char),
      t ∈ bucketsGet out st → t ∈ bucketsGet (assignGo ded out seen items) st := by
  intro ded items
  induction items with
  | nil => intro out seen st t ht; exact ht
  | cons itm rest ih =>
    intro out seen st t ht
    obtain ⟨st1, pos1, ch1⟩ := itm
    have hpush : t ∈ bucketsGet (bucketsPush out st1 ch1) st := by
      rw [bucketsGet_push]
      by_cases hst : st = st1
      · rw [if_pos hst]; exact List.mem_append_left _ ht
      · rw [if_neg hst]; exact ht
    cases ded with
    | false =>
      have hred : assignGo false out seen ((st1, pos1, ch1) :: rest)
          = assignGo false (bucketsPush out st1 ch1) seen rest := by simp [assignGo]
      rw [hred]
      exact ih _ _ _ _ hpush
    | true =>
      by_cases hmem : pyLower ch1 ∈ bucketsGet seen st1
      · have hred : assignGo true out seen ((st1, pos1, ch1) :: rest)
            = assignGo true out seen rest := by simp [assignGo, hmem]
        rw [hred]
        exact ih _ _ _ _ ht
      · have hred : assignGo true out seen ((st1, pos1, ch1) :: rest)
            = assignGo true (bucketsPush out st1 ch1) (bucketsPush seen st1 (pyLower ch1)) rest := by
          simp [assignGo, hmem]
        rw [hred]
        exact ih _ _ _ _ hpush

lemma assignGo_covers :
    ∀ (items : List (Style × Int × List Char)) (out seen : Buckets),
      (∀ st', bucketsGet seen st' = (bucketsGet out st').map pyLower) →
      ∀ it ∈ items,
        ∃ t ∈ bucketsGet (assignGo true out seen items) it.1, pyLower t = pyLower it.2.2 := by
  intro items
  induction items with
  | nil => intro out seen _ it hit; simp at hit
  | cons itm rest ih =>
    intro out seen hinv it hit
    obtain ⟨st1, pos1, ch1⟩ := itm
    by_cases hmem : pyLower ch1 ∈ bucketsGet seen st1
    · have hred : assignGo true out seen ((st1, pos1, ch1) :: rest)
          = assignGo true out seen rest := by simp [assignGo, hmem]
      rw [hred]
      rcases List.mem_cons.mp hit with he | hr
      · rw [hinv st1] at hmem
        obtain ⟨t0, ht0, hlow⟩ := List.mem_map.mp hmem
        subst he
        exact ⟨t0, assignGo_mono true rest out seen st1 t0 ht0, hlow⟩
      · exact ih out seen hinv it hr
    · have hred : assignGo true out seen ((st1, pos1, ch1) :: rest)
          = assignGo true (bucketsPush out st1 ch1) (bucketsPush seen st1 (pyLower ch1)) rest := by
        simp [assignGo, hmem]
      rw [hred]
      have hinv2 : ∀ st', bucketsGet (bucketsPush seen st1 (pyLower ch1)) st'
          = (bucketsGet (bucketsPush out st1 ch1) st').map pyLower := by
        intro st'
        rw [bucketsGet_push, bucketsGet_push]
        by_cases hst : st' = st1
        · rw [if_pos hst, if_pos hst, List.map_append, hinv st']
          rfl
        · rw [if_neg hst, if_neg hst, hinv st']
      rcases List.mem_cons.mp hit with he | hr
      · subst he
        refine ⟨ch1, assignGo_mono true rest _ _ st1 ch1 ?_, rfl⟩
        rw [bucketsGet_push, if_pos rfl]
        exact List.mem_append_right _ (List.mem_singleton.mpr rfl)
      · exact ih _ _ hinv2 it hr

lemma extractItem_none_of_past (src : List Char) (s : StyleSpan) (o : Int)
    (ho : s.offset = some o) (hge : (src.length : Int) ≤ o) :
    extractItem src s = none := by
  obtain ⟨soff, slen, sstyle⟩ := s
  have ho' : soff = some o := ho
  subst ho'
  cases slen with
  | none => simp [extractItem]
  | some l =>
    by_cases hl0 : l ≤ 0
    · simp [extractItem, hl0]
    · cases hst : styleOfString (normalize_style_name sstyle) with
      | none => simp [extractItem, hl0, hst]
      | some st2 =>
        simp [extractItem, hl0, hst, pySlice_empty_of_ge src o (o + l) hge]

/-- Claim C10 counterexample: in payload
`{value: "aA", styles: [{0,1,bold}, {1,5,bold}]}` the second span satisfies
`0 ≤ offset < len(src) < offset + length`, but its truncated suffix `"A"`
is *not* in the bold bucket: dedupe drops it as a case-insensitive
duplicate of the earlier term `"a"`, so the claim's unconditional
"includes the truncated suffix as the term" fails. -/
theorem C10_counterexample :
    (0 : Int) ≤ 1 ∧ (1 : Int) < ("aA".toList.length : Int) ∧
    ("aA".toList.length : Int) < 1 + 5 ∧
    ¬ "A".toList ∈ (extract_words_by_style
        ⟨"aA".toList, [⟨some 0, some 1, "bold".toList⟩, ⟨some 1, some 5, "bold".toList⟩]⟩
        true true).bold := by
  decide

/-- Claim C10, amended: (a) a span with `0 ≤ offset < len(src) <
offset + length` (positive length, recognized style) is not skipped — it
contributes the truncated suffix `src[offset:]`, and the bucket contains a
term equal to it up to the case-insensitive dedupe normalization (the
suffix itself whenever no case-variant duplicate precedes it); (b) a span
whose offset is at or past the end of the source is silently dropped: the
extraction result is exactly that of the payload without it. -/
theorem C10_amended :
    (∀ (src : List Char) (spans : List StyleSpan) (s : StyleSpan) (o l : Int) (st : Style),
        s ∈ spans → s.offset = some o → s.length = some l →
        styleOfString (normalize_style_name s.style) = some st →
        0 ≤ o → o < (src.length : Int) → (src.length : Int) < o + l →
        ∃ t ∈ bucketsGet (extract_words_by_style ⟨src, spans⟩ true true) st,
          pyLower t = pyLower (src.drop o.toNat)) ∧
    (∀ (src : List Char) (l1 l2 : List StyleSpan) (s : StyleSpan) (o : Int) (snap ded : Bool),
        s.offset = some o → (src.length : Int) ≤ o →
        extract_words_by_style ⟨src, l1 ++ s :: l2⟩ snap ded
          = extract_words_by_style ⟨src, l1 ++ l2⟩ snap ded) := by
  constructor
  · intro src spans s o l st hs ho hl hst h0 hlt hpast
    have hsuf : pySlice src o (o + l) = src.drop o.toNat := pySlice_suffix src o l h0 hlt hpast
    have hne : pySlice src o (o + l) ≠ [] := by
      rw [hsuf]
      intro hd
      rw [List.drop_eq_nil_iff] at hd
      omega
    have hitem : extractItem src s = some (st, o, pySlice src o (o + l)) := by
      obtain ⟨soff, slen, sstyle⟩ := s
      have ho' : soff = some o := ho
      have hl' : slen = some l := hl
      subst ho'
      subst hl'
      have hst' : styleOfString (normalize_style_name sstyle) = some st := hst
      simp [extractItem, (show ¬ l ≤ 0 by omega), hst', hne]
    have hmem1 : (st, o, pySlice src o (o + l))
        ∈ spans.filterMap (extractItem src) :=
      List.mem_filterMap.mpr ⟨s, hs, hitem⟩
    have hmem2 : (st, o, pySlice src o (o + l))
        ∈ List.insertionSort (fun a b => a.2.1 ≤ b.2.1) (spans.filterMap (extractItem src)) :=
      (List.perm_insertionSort _ _).mem_iff.mpr hmem1
    have hinv0 : ∀ st', bucketsGet (⟨[], [], []⟩ : Buckets) st'
        = (bucketsGet (⟨[], [], []⟩ : Buckets) st').map pyLower := by
      intro st'; cases st' <;> rfl
    obtain ⟨t, ht, hlow⟩ := assignGo_covers _ ⟨[], [], []⟩ ⟨[], [], []⟩ hinv0 _ hmem2
    refine ⟨t, ?_, by rw [hlow, hsuf]⟩
    simpa [extract_words_by_style] using ht
  · intro src l1 l2 s o snap ded ho hge
    simp only [extract_words_by_style]
    rw [List.filterMap_append, List.filterMap_append,
      List.filterMap_cons_none (extractItem_none_of_past src s o ho hge)]

/-- Witness for C10_amended: over `"aA"`, the overlong second bold span
contributes a term casefold-equal to its suffix `"A"`; and over `"abc"`, a
span at offset 5 (past the end) leaves the extraction unchanged. -/
theorem C10_witness :
    (∃ t ∈ bucketsGet (extract_words_by_style
        ⟨"aA".toList, [⟨some 0, some 1, "bold".toList⟩, ⟨some 1, some 5, "bold".toList⟩]⟩
        true true) .bold,
        pyLower t = pyLower ("aA".toList.drop 1)) ∧
    extract_words_by_style
        ⟨"abc".toList, [⟨some 0, some 1, "bold".toList⟩] ++ ⟨some 5, some 2, "bold".toList⟩ :: []⟩
        true true
      = extract_words_by_style ⟨"abc".toList, [⟨some 0, some 1, "bold".toList⟩] ++ []⟩ true true :=
  ⟨C10_amended.1 "aA".toList _ ⟨some 1, some 5, "bold".toList⟩ 1 5 .bold (by decide) rfl rfl
      (by decide) (by decide) (by decide) (by decide),
   C10_amended.2 "abc".toList [⟨some 0, some 1, "bold".toList⟩] [] ⟨some 5, some 2, "bold".toList⟩
      5 true true rfl (by decide)⟩

/-!
## Claims C4 and C9: the recovered alignment object
-/

lemma lookup_setMap_self (d : List (String × JVal)) (k : String) (v : JVal)
    (h : (List.lookup k d).isSome) :
    List.lookup k (d.map (fun p => if p.1 = k then (k, v) else p)) = some v := by
  induction d with
  | nil => simp at h
  | cons p t ih =>
    obtain ⟨k1, v1⟩ := p
    by_cases hk : k1 = k
    · subst hk
      simp [List.lookup_cons]
    · have hbeq : (k == k1) = false := beq_eq_false_iff_ne.mpr (fun he => hk he.symm)
      simp only [List.map_cons, if_neg hk, List.lookup_cons, hbeq]
      apply ih
      simpa [List.lookup_cons, hbeq] using h

lemma lookup_setMap_ne (d : List (String × JVal)) (k k' : String) (v : JVal) (h : k' ≠ k) :
    List.lookup k' (d.map (fun p => if p.1 = k then (k, v) else p)) = List.lookup k' d := by
  induction d with
  | nil => rfl
  | cons p t ih =>
    obtain ⟨k1, v1⟩ := p
    by_cases hk : k1 = k
    · subst hk
      have hbeq : (k' == k1) = false := beq_eq_false_iff_ne.mpr h
      simp only [List.map_cons, if_pos rfl, if_true, List.lookup_cons, hbeq]
      exact ih
    · simp only [List.map_cons, if_neg hk, List.lookup_cons]
      cases hbeq : k' == k1 with
      | true => rfl
      | false => exact ih

lemma lookup_dictSet_self (d : List (String × JVal)) (k : String) (v : JVal) :
    List.lookup k (dictSet d k v) = some v := by
  unfold dictSet
  by_cases h : (List.lookup k d).isSome
  · rw [if_pos h]
    exact lookup_setMap_self d k v h
  · rw [if_neg h]
    have hnone : List.lookup k d = none := Option.not_isSome_iff_eq_none.mp h
    rw [List.lookup_append, hnone]
    simp [List.lookup_cons]

lemma lookup_dictSet_ne (d : List (String × JVal)) (k k' : String) (v : JVal) (h : k' ≠ k) :
    List.lookup k' (dictSet d k v) = List.lookup k' d := by
  unfold dictSet
  by_cases hs : (List.lookup k d).isSome
  · rw [if_pos hs]
    exact lookup_setMap_ne d k k' v h
  · rw [if_neg hs]
    rw [List.lookup_append]
    have hbeq : (k' == k) = false := beq_eq_false_iff_ne.mpr h
    cases hl : List.lookup k' d with
    | some w => rfl
    | none => simp [List.lookup_cons, hbeq]

lemma ensureIter_strings (v : JVal) (xs : List JVal) (h : ensureIter v = some xs) :
    ∀ x ∈ xs, ∃ s, x = .jstr s := by
  intro x hx
  cases v with
  | jarr a =>
    obtain rfl : a.map (fun y => JVal.jstr (pyStrJ y)) = xs := Option.some.inj h
    obtain ⟨y, _, rfl⟩ := List.mem_map.mp hx
    exact ⟨_, rfl⟩
  | jstr s =>
    obtain rfl : s.map (fun c => JVal.jstr [c]) = xs := Option.some.inj h
    obtain ⟨y, _, rfl⟩ := List.mem_map.mp hx
    exact ⟨_, rfl⟩
  | jobj fs =>
    obtain rfl : fs.map (fun f => JVal.jstr f.1.toList) = xs := Option.some.inj h
    obtain ⟨y, _, rfl⟩ := List.mem_map.mp hx
    exact ⟨_, rfl⟩
  | jnull => simp [ensureIter] at h
  | jbool b => simp [ensureIter] at h
  | jnum n => simp [ensureIter] at h

lemma ensureKey_lookup_self (d : List (String × JVal)) (k : String) (d' : List (String × JVal))
    (h : ensureKey d k = some d') :
    ∃ xs, List.lookup k d' = some (.jarr xs) ∧ ∀ x ∈ xs, ∃ s, x = .jstr s := by
  unfold ensureKey ensureKeyAux at h
  split at h
  · rename_i v heq
    split at h
    · rename_i xs heq2
      obtain rfl := Option.some.inj h
      exact ⟨xs, lookup_dictSet_self _ k _, ensureIter_strings v xs heq2⟩
    · exact Option.noConfusion h
  · exact Option.noConfusion h

lemma ensureKey_lookup_pres (d : List (String × JVal)) (k k' : String) (d' : List (String × JVal))
    (hne : k' ≠ k) (h : ensureKey d k = some d') (w : JVal) (hw : List.lookup k' d = some w) :
    List.lookup k' d' = some w := by
  unfold ensureKey ensureKeyAux at h
  split at h
  · rename_i v heq
    split at h
    · rename_i xs heq2
      obtain rfl := Option.some.inj h
      rw [lookup_dictSet_ne _ _ _ _ hne]
      by_cases hs : (List.lookup k d).isSome
      · rw [if_pos hs]; exact hw
      · rw [if_neg hs, List.lookup_append, hw]; rfl
    · exact Option.noConfusion h
  · exact Option.noConfusion h

lemma ensure_keys_ok (d res : List (String × JVal)) (h : ensure_alignment_keys d = some res) :
    ∀ k, k = "bold" ∨ k = "italics" ∨ k = "underline" →
      ∃ xs, List.lookup k res = some (.jarr xs) ∧ ∀ x ∈ xs, ∃ s, x = .jstr s := by
  unfold ensure_alignment_keys at h
  split at h
  · exact Option.noConfusion h
  · rename_i d1 h1
    split at h
    · exact Option.noConfusion h
    · rename_i d2 h2
      intro k hk
      rcases hk with rfl | rfl | rfl
      · obtain ⟨xs, hx, hstr⟩ := ensureKey_lookup_self d "bold" d1 h1
        have hx2 := ensureKey_lookup_pres d1 "italics" "bold" d2 (by decide) h2 _ hx
        have hx3 := ensureKey_lookup_pres d2 "underline" "bold" res (by decide) h _ hx2
        exact ⟨xs, hx3, hstr⟩
      · obtain ⟨xs, hx, hstr⟩ := ensureKey_lookup_self d1 "italics" d2 h2
        have hx3 := ensureKey_lookup_pres d2 "underline" "italics" res (by decide) h _ hx
        exact ⟨xs, hx3, hstr⟩
      · exact ensureKey_lookup_self d2 "underline" res h

lemma finishEnsure_ok (obj res : List (String × JVal)) (h : finishEnsure obj = .ok res) :
    ensure_alignment_keys obj = some res := by
  unfold finishEnsure at h
  split at h
  · next r heq => exact (Except.ok.inj h) ▸ heq
  · exact Except.noConfusion h

/-- Claim C4 counterexample: the service content
`{"bold":[],"italics":[],"underline":[],"extra":[]}` is successfully
recovered yet the returned mapping carries the fourth key `"extra"`
(`_ensure_alignment_keys` never removes keys), so the result does not have
*exactly* the three alignment keys. -/
theorem C4_counterexample :
    ∃ res, call_alignment_api
        (mkResponse (.jstr
          "\x7b\"bold\":[],\"italics\":[],\"underline\":[],\"extra\":[]\x7d".toList))
        [] [] [] = .ok res ∧
      res.map Prod.fst = ["bold", "italics", "underline", "extra"] ∧
      ¬ ("extra" = "bold" ∨ "extra" = "italics" ∨ "extra" = "underline") := by
  refine ⟨[("bold", .jarr []), ("italics", .jarr []), ("underline", .jarr []),
    ("extra", .jarr [])], ?_, ?_, by decide⟩
  · rfl
  · rfl

/-- Claim C4, amended: every successfully recovered result contains *at
least* the three keys bold/italics/underline, each holding an array whose
elements are all strings; keys other than these three may additionally be
present, passed through unchanged. -/
theorem C4_amended :
    ∀ (data : JVal) (b i u : List (List Char)) (res : List (String × JVal)),
      call_alignment_api data b i u = .ok res →
      ∀ k, k = "bold" ∨ k = "italics" ∨ k = "underline" →
        ∃ xs, List.lookup k res = some (.jarr xs) ∧ ∀ x ∈ xs, ∃ s, x = .jstr s := by
  intro data b i u res h
  unfold call_alignment_api at h
  split at h
  · split at h
    · split at h
      · split at h
        · exact ensure_keys_ok _ _ (finishEnsure_ok _ _ h)
        · exact absurd h (by simp)
      · exact absurd h (by simp)
    · split at h
      · exact ensure_keys_ok _ _ (finishEnsure_ok _ _ h)
      · exact ensure_keys_ok _ _ (finishEnsure_ok _ _ h)
      · exact absurd h (by simp)
  · exact absurd h (by simp)

/-- Witness for C4_amended at a concrete successful recovery. -/
theorem C4_witness :
    ∃ xs, List.lookup "bold"
        [("bold", JVal.jarr [JVal.jstr "Bold****Gras".toList]),
         ("italics", JVal.jarr []), ("underline", JVal.jarr [])]
      = some (.jarr xs) ∧ ∀ x ∈ xs, ∃ s, x = .jstr s :=
  C4_amended
    (mkResponse (.jstr
      "\x7b\"bold\":[\"Bold****Gras\"],\"italics\":[],\"underline\":[]\x7d".toList))
    [] [] []
    [("bold", JVal.jarr [JVal.jstr "Bold****Gras".toList]),
     ("italics", JVal.jarr []), ("underline", JVal.jarr [])]
    (by rfl) "bold" (Or.inl rfl)

lemma ensure3_id (l1 l2 l3 : List (List Char)) :
    ensure_alignment_keys
      [("bold", .jarr (l1.map .jstr)), ("italics", .jarr (l2.map .jstr)),
       ("underline", .jarr (l3.map .jstr))]
      = some [("bold", .jarr (l1.map .jstr)), ("italics", .jarr (l2.map .jstr)),
       ("underline", .jarr (l3.map .jstr))] := by
  simp [ensure_alignment_keys, ensureKey, ensureKeyAux, dictSet, ensureIter,
    List.lookup_cons, List.map_map, Function.comp, pyStrJ]

/-- Claim C9: when the recovery chain reaches the brace-list fallback
(direct decode and first-object extraction both failed, the stripped
content coerces to a flat list of strings), the list is sliced positionally
into bold, then italics, then underline exactly when its length equals the
total number of supplied terms, and otherwise the call raises. -/
theorem C9_theorem :
    ∀ (data : JVal) (s : List Char) (b i u : List (List Char)) (lst : List (List Char)),
      extractContent data = .jstr s →
      parsedOf (strip_code_fences s) = none →
      coerce_brace_list_to_array (strip_code_fences s) = some lst →
      call_alignment_api data b i u =
        (if lst.length = b.length + i.length + u.length then
          .ok [("bold", .jarr ((lst.take b.length).map .jstr)),
               ("italics", .jarr (((lst.drop b.length).take i.length).map .jstr)),
               ("underline", .jarr (((lst.drop (b.length + i.length)).take u.length).map .jstr))]
         else .error .valueError) := by
  intro data s b i u lst hc hp hcoerce
  unfold call_alignment_api
  rw [hc]
  simp only [hp, hcoerce]
  by_cases hlen : lst.length = b.length + i.length + u.length
  · rw [if_pos hlen, if_pos hlen]
    unfold finishEnsure
    rw [ensure3_id]
  · rw [if_neg hlen, if_neg hlen]

/-- Witness for C9_theorem: the spec's concrete scenario — term counts
bold=1, italics=1, underline=0 and content `{"foo****bar","baz****qux"}` —
recovers to `{bold:["foo****bar"], italics:["baz****qux"], underline:[]}`. -/
theorem C9_witness :
    call_alignment_api
        (mkResponse (.jstr "\x7b\"foo****bar\",\"baz****qux\"\x7d".toList))
        ["x".toList] ["y".toList] []
      = .ok [("bold", .jarr [.jstr "foo****bar".toList]),
             ("italics", .jarr [.jstr "baz****qux".toList]),
             ("underline", .jarr [])] := by
  have h := C9_theorem
    (mkResponse (.jstr "\x7b\"foo****bar\",\"baz****qux\"\x7d".toList))
    "\x7b\"foo****bar\",\"baz****qux\"\x7d".toList
    ["x".toList] ["y".toList] []
    ["foo****bar".toList, "baz****qux".toList]
    rfl (by rfl) (by rfl)
  rw [h]
  rfl

end PreserveStyling
